import Mathlib

/-!
Verification of the PostgreSQL shard-aware document store
(executor-hnsw-postgres, src/executor/postgreshandler.py).

The development shallowly embeds the handler: the primary table is a list of
rows, the snapshot is an optional list of rows, timestamps are naturals passed
explicitly (the SQL current_timestamp), Python exceptions are Except values,
and the SHA-256 shard hash is implemented bit-for-bit over Nat with explicit
reduction modulo 2^32.  Byte strings that the store treats as opaque (the
serialized document payload and the serialized embedding buffer; their codec
is out of scope per the spec) are modelled as opaque Nat tokens.
-/

namespace PG

/-! ## SHA-256 over Nat, as used by hashlib.sha256 in _get_next_shard -/

/-- Word size modulus for 32-bit arithmetic. -/
def two32 : Nat := 4294967296

/-- Right rotation of a 32-bit word held in a Nat. -/
def rotr (n x : Nat) : Nat := ((x >>> n) ||| (x <<< (32 - n))) % two32

def bigS0 (x : Nat) : Nat := (rotr 2 x) ^^^ (rotr 13 x) ^^^ (rotr 22 x)

def bigS1 (x : Nat) : Nat := (rotr 6 x) ^^^ (rotr 11 x) ^^^ (rotr 25 x)

def smlS0 (x : Nat) : Nat := (rotr 7 x) ^^^ (rotr 18 x) ^^^ (x >>> 3)

def smlS1 (x : Nat) : Nat := (rotr 17 x) ^^^ (rotr 19 x) ^^^ (x >>> 10)

def ch (x y z : Nat) : Nat := (x &&& y) ^^^ ((4294967295 ^^^ x) &&& z)

def maj (x y z : Nat) : Nat := (x &&& y) ^^^ (x &&& z) ^^^ (y &&& z)

/-- The 64 SHA-256 round constants of FIPS 180, as decimal numerals. -/
def K : List Nat :=
  [1116352408, 1899447441, 3049323471, 3921009573, 961987163,
   1508970993, 2453635748, 2870763221, 3624381080, 310598401,
   607225278, 1426881987, 1925078388, 2162078206, 2614888103,
   3248222580, 3835390401, 4022224774, 264347078, 604807628,
   770255983, 1249150122, 1555081692, 1996064986, 2554220882,
   2821834349, 2952996808, 3210313671, 3336571891, 3584528711,
   113926993, 338241895, 666307205, 773529912, 1294757372,
   1396182291, 1695183700, 1986661051, 2177026350, 2456956037,
   2730485921, 2820302411, 3259730800, 3345764771, 3516065817,
   3600352804, 4094571909, 275423344, 430227734, 506948616,
   659060556, 883997877, 958139571, 1322822218, 1537002063,
   1747873779, 1955562222, 2024104815, 2227730452, 2361852424,
   2428436474, 2756734187, 3204031479, 3329325298]

/-- The eight 32-bit working variables of the SHA-256 compression function. -/
structure H8 where
  a : Nat
  b : Nat
  c : Nat
  d : Nat
  e : Nat
  f : Nat
  g : Nat
  h : Nat
  deriving DecidableEq

/-- SHA-256 initial hash value. -/
def H0 : H8 :=
  ⟨1779033703, 3144134277, 1013904242, 2773480762,
   1359893119, 2600822924, 528734635, 1541459225⟩

/-- One SHA-256 compression round on a pair of round constant and schedule word. -/
def round1 (st : H8) (kw : Nat × Nat) : H8 :=
  let t1 := (st.h + bigS1 st.e + ch st.e st.f st.g + kw.1 + kw.2) % two32
  let t2 := (bigS0 st.a + maj st.a st.b st.c) % two32
  ⟨(t1 + t2) % two32, st.a, st.b, st.c, (st.d + t1) % two32, st.e, st.f, st.g⟩

/-- Message-schedule extension: append n further schedule words. -/
def schedule (ws : List Nat) : Nat → List Nat
  | 0 => ws
  | n+1 =>
    let L := ws.length
    let w := (smlS1 (ws.getD (L - 2) 0) + ws.getD (L - 7) 0 +
              smlS0 (ws.getD (L - 15) 0) + ws.getD (L - 16) 0) % two32
    schedule (ws ++ [w]) n

/-- Group bytes into big-endian 32-bit words. -/
def wordsOfBytes : List Nat → List Nat
  | b0 :: b1 :: b2 :: b3 :: rest => (((b0 * 256 + b1) * 256 + b2) * 256 + b3) :: wordsOfBytes rest
  | _ => []

/-- Compress one 64-byte block into the running hash state. -/
def processBlock (st : H8) (block : List Nat) : H8 :=
  let ws := schedule (wordsOfBytes block) 48
  let r := (K.zip ws).foldl round1 st
  ⟨(st.a + r.a) % two32, (st.b + r.b) % two32, (st.c + r.c) % two32, (st.d + r.d) % two32,
   (st.e + r.e) % two32, (st.f + r.f) % two32, (st.g + r.g) % two32, (st.h + r.h) % two32⟩

/-- Big-endian byte expansion of a Nat to a fixed number of bytes. -/
def natToBytesBE : Nat → Nat → List Nat
  | 0, _ => []
  | n+1, x => natToBytesBE n (x / 256) ++ [x % 256]

/-- SHA-256 padding: a 0x80 byte, zeros, then the 64-bit big-endian bit length. -/
def padMessage (msg : List Nat) : List Nat :=
  let padZeros := (64 - ((msg.length + 9) % 64)) % 64
  msg ++ 128 :: List.replicate padZeros 0 ++ natToBytesBE 8 (8 * msg.length)

/-- Fuel-driven 64-byte chunking of the padded message. -/
def chunksGo : Nat → List Nat → List (List Nat)
  | 0, _ => []
  | _, [] => []
  | fuel+1, l => l.take 64 :: chunksGo fuel (l.drop 64)

def chunks64 (l : List Nat) : List (List Nat) := chunksGo l.length l

/-- Big-endian byte expansion of a 32-bit word. -/
def wordToBytesBE (w : Nat) : List Nat :=
  [w / 16777216 % 256, w / 65536 % 256, w / 256 % 256, w % 256]

/-- The 32-byte SHA-256 digest of a byte string: the big-endian bytes of the
eight final state words. -/
def sha256Bytes (msg : List Nat) : List Nat :=
  let fin := (chunks64 (padMessage msg)).foldl processBlock H0
  [fin.a, fin.b, fin.c, fin.d, fin.e, fin.f, fin.g, fin.h].flatMap wordToBytesBE

/-- Lowercase hexadecimal digit for a value below 16. -/
def hexChar (n : Nat) : Char := if n < 10 then Char.ofNat (48 + n) else Char.ofNat (87 + n)

/-- Lowercase hexadecimal rendering of a byte string, as hashlib hexdigest produces. -/
def bytesToHex (bs : List Nat) : String :=
  String.mk (bs.flatMap (fun b => [hexChar (b / 16), hexChar (b % 16)]))

/-- Value of a lowercase hexadecimal digit character. -/
def hexVal (c : Char) : Nat := if c.toNat ≤ 57 then c.toNat - 48 else c.toNat - 87

/-- The Python int(s, 16) conversion, on the lowercase hexadecimal strings that
hexdigest produces. -/
def int_of_hex (s : String) : Nat := s.data.foldl (fun a c => 16 * a + hexVal c) 0

/-- UTF-8 encoding of a single code point. -/
def utf8EncodeCharNat (c : Nat) : List Nat :=
  if c < 128 then [c]
  else if c < 2048 then [192 ||| (c >>> 6), 128 ||| (c &&& 63)]
  else if c < 65536 then [224 ||| (c >>> 12), 128 ||| ((c >>> 6) &&& 63), 128 ||| (c &&& 63)]
  else [240 ||| (c >>> 18), 128 ||| ((c >>> 12) &&& 63), 128 ||| ((c >>> 6) &&& 63), 128 ||| (c &&& 63)]

/-- UTF-8 bytes of a string, the Python bytes(doc_id, 'utf-8'). -/
def utf8Bytes (s : String) : List Nat := s.data.flatMap (fun c => utf8EncodeCharNat c.toNat)

/-- The hashlib sha256 hexdigest of a byte string. -/
def sha256hexdigest (msg : List Nat) : String := bytesToHex (sha256Bytes msg)

/-- Big-endian unsigned-integer value of a byte string (the specification's
reading of a 256-bit digest as an unsigned integer). -/
def bytesToNatBE (bs : List Nat) : Nat := bs.foldl (fun a b => 256 * a + b) 0

/-! ## Errors raised by the handler operations -/

inductive PgError where
  /-- Python ZeroDivisionError from the modulo in the shard computation. -/
  | zeroDivision
  /-- Python AttributeError from dereferencing an absent embedding. -/
  | nullEmbedding
  /-- A backend error while executing a query. -/
  | backend
  deriving DecidableEq

/-- The shard value as the Python expression int(sha.hexdigest(), 16) % partitions
computes it: Python % is floor modulus (Int.fmod) and raises on a zero modulus. -/
def _get_next_shard (doc_id : String) (partitions : Int) : Except PgError Int :=
  if partitions = 0 then .error .zeroDivision
  else .ok (Int.fmod ((int_of_hex (sha256hexdigest (utf8Bytes doc_id)) : Nat) : Int) partitions)

/-- Modelled from the spec: shard_for(id, N), the SHA-256 hash of the UTF-8
identifier bytes interpreted as an unsigned integer and reduced modulo the
partition count.  Stated separately from _get_next_shard so the two can be
compared. -/
def shard_for (id : String) (N : Nat) : Nat :=
  bytesToNatBE (sha256Bytes (utf8Bytes id)) % N

/-! ## Data model: documents and table rows -/

/-- A caller-supplied document: an identifier, an optional embedding buffer and
the rest of the metadata.  The embedding buffer and the serialized document
are opaque byte strings modelled as Nat tokens (their codec is out of scope). -/
structure Doc where
  id : String
  embedding : Option Nat
  meta : Nat
  deriving DecidableEq

/-- Serialization of a document with its embedding removed (the doc column).
The codec is out of scope, so it is the opaque metadata token. -/
def doc_without_embedding (d : Doc) : Nat := d.meta

/-- One row of the primary (or snapshot) table:
doc_id, embedding BYTEA, doc BYTEA, shard int, last_updated timestamp. -/
structure Row where
  doc_id : String
  embedding : Option Nat
  doc : Option Nat
  shard : Int
  last_updated : Nat
  deriving DecidableEq

/-- Row built by the add statement: values (id, embedding-or-NULL, doc bytes,
shard, current_timestamp). -/
def mkRow (d : Doc) (s : Int) (now : Nat) : Row :=
  ⟨d.id, d.embedding, some (doc_without_embedding d), s, now⟩

/-- Sequential batch insert honouring the primary-key constraint: the first
row whose doc_id is already present raises a uniqueness violation, reported
here as none. -/
def insertAll (tbl : List Row) : List Row → Option (List Row)
  | [] => some tbl
  | r :: rest =>
    if tbl.any (fun q => q.doc_id == r.doc_id) then none
    else insertAll (tbl ++ [r]) rest

/-- The add operation.  The parameter list (with one shard computation per
document) is evaluated before the batch executes, so a shard error aborts the
call; a uniqueness violation rolls the whole transaction back, leaving the
table unchanged, and yields a warning exactly when mute_unique_warnings is not
set.  The returned Bool records whether the warning was logged. -/
def add (mute : Bool) (partitions : Int) (now : Nat) (tbl : List Row) (docs : List Doc) :
    Except PgError (List Row × Bool) := do
  let rows ← docs.mapM (fun d => (_get_next_shard d.id partitions).map (fun s => mkRow d s now))
  match insertAll tbl rows with
  | some t2 => pure (t2, false)
  | none => pure (tbl, !mute)

/-- Effect of one UPDATE statement of the update batch on one row: overwrite
embedding, doc and last_updated where doc_id matches. -/
def updateRow (now : Nat) (d : Doc) (r : Row) : Row :=
  if r.doc_id = d.id then
    { r with embedding := d.embedding, doc := some (doc_without_embedding d), last_updated := now }
  else r

/-- The update operation.  The parameter list dereferences every document's
embedding unconditionally, so an absent embedding raises before anything
executes; otherwise each document's UPDATE statement runs in order. -/
def update (now : Nat) (tbl : List Row) (docs : List Doc) : Except PgError (List Row) :=
  if docs.all (fun d => d.embedding.isSome) then
    .ok (docs.foldl (fun t d => t.map (updateRow now d)) tbl)
  else .error .nullEmbedding

/-- Effect of one soft-delete UPDATE statement on one row: null the embedding
and doc columns and refresh last_updated where doc_id matches. -/
def clearRow (now : Nat) (i : String) (r : Row) : Row :=
  if r.doc_id = i then { r with embedding := none, doc := none, last_updated := now }
  else r

/-- The delete operation: soft deletion tombstones matching rows, hard
deletion removes them. -/
def delete (soft : Bool) (now : Nat) (tbl : List Row) (docs : List Doc) : List Row :=
  if soft then docs.foldl (fun t d => t.map (clearRow now d.id)) tbl
  else docs.foldl (fun t d => t.filter (fun r => r.doc_id != d.id)) tbl

/-- The cleanup operation: physically delete every row whose doc column is NULL. -/
def cleanup (tbl : List Row) : List Row := tbl.filter (fun r => r.doc.isSome)

/-- The get_size operation: SELECT COUNT(*) over the primary table. -/
def get_size (tbl : List Row) : Nat := tbl.length

/-- A value produced by search for one id. -/
structure Retrieved where
  meta : Nat
  embedding : Option Nat
  deriving DecidableEq

/-- How a search lookup fails: fetchone found no row (subscripting None
raises), or the doc column was NULL (converting None to bytes raises). -/
inductive SearchFailure where
  | rowMissing
  | nullPayload
  deriving DecidableEq

/-- Point lookup of one id, following the body of the search loop. -/
def searchOne (tbl : List Row) (return_embeddings : Bool) (i : String) :
    Except SearchFailure Retrieved :=
  match tbl.find? (fun r => r.doc_id == i) with
  | none => .error .rowMissing
  | some r =>
    match r.doc with
    | none => .error .nullPayload
    | some payload => .ok ⟨payload, if return_embeddings then r.embedding else none⟩

/-- The search operation: sequential point lookups; the first failing lookup
aborts the loop with its error. -/
def search (tbl : List Row) (return_embeddings : Bool) (ids : List String) :
    Except SearchFailure (List Retrieved) :=
  ids.mapM (searchOne tbl return_embeddings)

/-! ## Snapshot and delta reads -/

/-- Ordering used by the ORDER BY doc_id clauses. -/
def rowKeyLe (a b : Row) : Bool := decide (a.doc_id ≤ b.doc_id)

/-- The get_snapshot operation.  It reads the snapshot table (none when that
table does not exist); any failure of the read, modelled by the fault flag, is
caught, logged and turned into an empty stream.  The Bool records whether an
error was logged. -/
def get_snapshot (fault : Bool) (snap : Option (List Row)) (shards : List Int) :
    List (String × Option Nat) × Bool :=
  match snap, fault with
  | some t, false =>
    (((t.filter (fun r => decide (r.shard ∈ shards))).mergeSort rowKeyLe).map
      (fun r => (r.doc_id, r.embedding)), false)
  | _, _ => ([], true)

/-- The get_snapshot_size operation: COUNT(*) over the snapshot table, with
any failure (including a missing snapshot table) caught, logged and turned
into 0.  The Bool records whether a warning was logged. -/
def get_snapshot_size (fault : Bool) (snap : Option (List Row)) : Nat × Bool :=
  match snap, fault with
  | some t, false => (t.length, false)
  | _, _ => (0, true)

/-- The _get_delta operation: rows of the primary table whose shard is in the
requested set and whose last_updated strictly exceeds the boundary, ordered by
doc_id.  Unlike the snapshot reads, the body has no exception handler, so a
backend fault propagates. -/
def _get_delta (fault : Bool) (tbl : List Row) (shards : List Int) (timestamp : Nat) :
    Except PgError (List (String × Option Nat × Nat)) :=
  if fault then .error .backend
  else .ok (((tbl.filter
      (fun r => decide (r.shard ∈ shards) && decide (timestamp < r.last_updated))).mergeSort
        rowKeyLe).map (fun r => (r.doc_id, r.embedding, r.last_updated)))

/-! ## Store construction and the schema version guard -/

/-- The compiled-in schema version constant. -/
def SCHEMA_VERSION : Int := 2

/-- The per-instance handler state that the claims need: the primary table,
the snapshot table (none until one is created), and the configuration. -/
structure Store where
  table : List Row
  snapshot : Option (List Row)
  partitions : Int
  mute_unique_warnings : Bool
  deriving DecidableEq

/-- Delta read issued through a store: it always reads the primary table,
never the snapshot. -/
def store_get_delta (fault : Bool) (st : Store) (shards : List Int) (timestamp : Nat) :
    Except PgError (List (String × Option Nat × Nat)) :=
  _get_delta fault st.table shards timestamp

/-- Version-registry lookup: SELECT schema_version WHERE table_name matches. -/
def lookupVersion (reg : List (String × Int)) (tbl : String) : Option Int :=
  (reg.find? (fun e => e.1 == tbl)).map (fun e => e.2)

/-- The RuntimeError message for a version mismatch, naming the stored and the
compiled-in versions. -/
def versionMismatchMsg (stored : Int) : String :=
  "The schema versions of the database (version " ++ toString stored ++
  ") and the Executor (version " ++ toString SCHEMA_VERSION ++
  ") do not match. Please migrate your data to the latest version or use an " ++
  "Executor version with a matching schema version."

/-- The RuntimeError message for a missing registry row.  The run of the two
Python string fragments has no space after the period, reproduced faithfully. -/
def noVersionMsg : String :=
  "The schema versions of the database (NO version number) and the Executor (version " ++
  toString SCHEMA_VERSION ++
  ") do not match.Please migrate your data to the latest version."

/-- The schema version guard run against an existing table. -/
def _assert_table_schema_version (reg : List (String × Int)) (tbl : String) :
    Except String Unit :=
  match lookupVersion reg tbl with
  | some v => if v = SCHEMA_VERSION then .ok () else .error (versionMismatchMsg v)
  | none => .error noVersionMsg

/-- Table initialization: use the existing table only after the version guard
passes, else create the table together with its registry row.  Returns the
resulting registry. -/
def _init_table (tableExists : Bool) (reg : List (String × Int)) (tbl : String) :
    Except String (List (String × Int)) :=
  if tableExists then do
    let _ ← _assert_table_schema_version reg tbl
    pure reg
  else pure (reg ++ [(tbl, SCHEMA_VERSION)])

/-- Store construction.  The configuration, including partitions, is stored
without validation; unless dry_run is set, table initialization runs and any
guard failure propagates out of the constructor, so no store is produced. -/
def pgInit (partitions : Int) (mute : Bool) (dry_run : Bool) (tableExists : Bool)
    (reg : List (String × Int)) (tbl : String) : Except String Store :=
  if dry_run then .ok ⟨[], none, partitions, mute⟩
  else do
    let _ ← _init_table tableExists reg tbl
    pure ⟨[], none, partitions, mute⟩

/-! ## The connection pool and the scoped-acquisition context manager -/

/-- The pool of available connection handles. -/
structure Pool where
  available : List Nat
  deriving DecidableEq

/-- Observable pool events during one scoped acquisition. -/
inductive PoolEv where
  | acquired (c : Nat)
  | released (c : Nat)
  deriving DecidableEq

/-- How a scoped acquisition can fail: the finally block references the
connection variable that acquisition never assigned (the Python
UnboundLocalError path), or the body raised and the error was re-raised after
release. -/
inductive ConnFailure where
  | unboundLocal
  | body
  deriving DecidableEq

/-- Return a connection to the pool, the putconn call. -/
def _close_connection (p : Pool) (c : Nat) : Pool := ⟨p.available ++ [c]⟩

/-- The get_connection context manager around a body.  Acquisition failure on
an exhausted pool reaches the finally block with the connection variable
unassigned, so nothing is released; otherwise the connection is yielded to
the body and the finally block releases it on both the normal and the raising
path.  The event trace records every acquisition and release. -/
def get_connection {α : Type} (p : Pool) (body : Nat → Except Unit α) :
    Except ConnFailure α × Pool × List PoolEv :=
  match p.available with
  | [] => (.error .unboundLocal, p, [])
  | c :: rest =>
    match body c with
    | .ok a => (.ok a, _close_connection ⟨rest⟩ c, [.acquired c, .released c])
    | .error _ => (.error .body, _close_connection ⟨rest⟩ c, [.acquired c, .released c])

/-! ## Facts about the hexadecimal rendering and the shard computation (C1) -/

/-- FIPS 180 test vector checking the SHA-256 embedding on the string abc. -/
theorem sha256_fips_vector_abc :
    sha256hexdigest (utf8Bytes "abc") =
      "ba7816bf8f01cfea414140de5dae2223b00361a396177a9cb410ff61f20015ad" := by rfl

/-- FIPS 180 test vector checking the SHA-256 embedding on the empty string. -/
theorem sha256_fips_vector_empty :
    sha256hexdigest (utf8Bytes "") =
      "e3b0c44298fc1c149afbf4c8996fb92427ae41e4649b934ca495991b7852b855" := by rfl

theorem hexVal_hexChar : ∀ n < 16, hexVal (hexChar n) = n := by decide

theorem wordToBytesBE_lt (w : Nat) : ∀ b ∈ wordToBytesBE w, b < 256 := by
  intro b hb
  simp only [wordToBytesBE, List.mem_cons, List.not_mem_nil, or_false] at hb
  rcases hb with h | h | h | h <;> subst h <;> omega

theorem sha256Bytes_lt (m : List Nat) : ∀ b ∈ sha256Bytes m, b < 256 := by
  intro b hb
  simp only [sha256Bytes, List.mem_flatMap] at hb
  obtain ⟨w, _, hw⟩ := hb
  exact wordToBytesBE_lt w b hw

theorem foldl_hex_flatMap :
    ∀ (bs : List Nat), (∀ b ∈ bs, b < 256) → ∀ (acc : Nat),
      (bs.flatMap (fun b => [hexChar (b / 16), hexChar (b % 16)])).foldl
        (fun a c => 16 * a + hexVal c) acc = bs.foldl (fun a b => 256 * a + b) acc := by
  intro bs
  induction bs with
  | nil => intro _ acc; rfl
  | cons b bs ih =>
    intro h acc
    have hb : b < 256 := h b (List.mem_cons_self b bs)
    have h1 : hexVal (hexChar (b / 16)) = b / 16 := hexVal_hexChar _ (by omega)
    have h2 : hexVal (hexChar (b % 16)) = b % 16 := hexVal_hexChar _ (by omega)
    rw [List.flatMap_cons, List.foldl_append, List.foldl_cons, List.foldl_cons, List.foldl_nil,
      ih (fun x hx => h x (List.mem_cons_of_mem b hx)), List.foldl_cons]
    congr 1
    rw [h1, h2]
    omega

theorem int_of_hex_bytesToHex (bs : List Nat) (h : ∀ b ∈ bs, b < 256) :
    int_of_hex (bytesToHex bs) = bytesToNatBE bs :=
  foldl_hex_flatMap bs h 0

/-- C1: for every identifier and the configured partition count N, the shard
computed at insert time by _get_next_shard equals the SHA-256 hash of the
UTF-8 bytes of the identifier, read as an unsigned integer, reduced modulo N;
it is deterministic (a pure function of its arguments) and lies in [0, N). -/
theorem shard_is_sha256_mod (id : String) (N : Int) (hN : 0 < N) :
    _get_next_shard id N = .ok ((shard_for id N.toNat : Nat) : Int) ∧
    ∀ r : Int, _get_next_shard id N = .ok r → 0 ≤ r ∧ r < N := by
  have hne : N ≠ 0 := by omega
  have hN' : (N.toNat : Int) = N := Int.toNat_of_nonneg hN.le
  have hpos : 0 < N.toNat := by omega
  have hdig : int_of_hex (sha256hexdigest (utf8Bytes id)) =
      bytesToNatBE (sha256Bytes (utf8Bytes id)) :=
    int_of_hex_bytesToHex _ (sha256Bytes_lt _)
  have hmain : _get_next_shard id N = .ok ((shard_for id N.toNat : Nat) : Int) := by
    simp only [_get_next_shard, if_neg hne]
    rw [hdig]
    simp only [shard_for]
    congr 1
    conv_lhs => rw [← hN']
    rw [← Int.ofNat_fmod]
  refine ⟨hmain, ?_⟩
  intro r hr
  rw [hmain] at hr
  have hr' : ((shard_for id N.toNat : Nat) : Int) = r := by
    injection hr
  subst hr'
  refine ⟨Int.natCast_nonneg _, ?_⟩
  have hlt : shard_for id N.toNat < N.toNat := Nat.mod_lt _ hpos
  rw [← hN']
  exact_mod_cast hlt

/-- Witness for shard_is_sha256_mod at a concrete identifier and partition
count. -/
theorem shard_is_sha256_mod_witness :
    (0 : Int) < 4 ∧
    (_get_next_shard "a" 4 = .ok ((shard_for "a" (4 : Int).toNat : Nat) : Int) ∧
     ∀ r : Int, _get_next_shard "a" 4 = .ok r → 0 ≤ r ∧ r < 4) :=
  ⟨by decide, shard_is_sha256_mod "a" 4 (by decide)⟩

/-! ## Facts about add and the uniqueness-conflict rollback (C2) -/

theorem mapM_mkRow_ok (p : Int) (hp : p ≠ 0) (now : Nat) (docs : List Doc) :
    docs.mapM (fun d => (_get_next_shard d.id p).map (fun s => mkRow d s now)) =
      .ok (docs.map (fun d =>
        mkRow d (Int.fmod ((int_of_hex (sha256hexdigest (utf8Bytes d.id)) : Nat) : Int) p)
          now)) := by
  induction docs with
  | nil => rfl
  | cons d ds ih =>
    rw [List.mapM_cons, ih]
    simp [_get_next_shard, hp, Except.map]
    rfl

theorem add_eq (mute : Bool) (p : Int) (now : Nat) (tbl : List Row) (docs : List Doc)
    (hp : p ≠ 0) :
    add mute p now tbl docs =
      match insertAll tbl (docs.map (fun d =>
          mkRow d (Int.fmod ((int_of_hex (sha256hexdigest (utf8Bytes d.id)) : Nat) : Int) p)
            now)) with
      | some t2 => .ok (t2, false)
      | none => .ok (tbl, !mute) := by
  unfold add
  rw [mapM_mkRow_ok p hp now docs]
  rfl

theorem insertAll_conflict :
    ∀ (rows tbl : List Row), (∃ r ∈ rows, ∃ q ∈ tbl, q.doc_id = r.doc_id) →
      insertAll tbl rows = none := by
  intro rows
  induction rows with
  | nil =>
    intro tbl h
    obtain ⟨r, hr, _⟩ := h
    exact absurd hr (List.not_mem_nil r)
  | cons r rest ih =>
    intro tbl h
    by_cases hany : tbl.any (fun q => q.doc_id == r.doc_id)
    · simp [insertAll, hany]
    · obtain ⟨r1, hr1, q, hq, hqid⟩ := h
      rcases List.mem_cons.mp hr1 with rfl | hr1'
      · exact absurd (List.any_eq_true.mpr ⟨q, hq, by simp [hqid]⟩) hany
      · have hrec : insertAll (tbl ++ [r]) rest = none :=
          ih (tbl ++ [r]) ⟨r1, hr1', q, List.mem_append_left _ hq, hqid⟩
        simp [insertAll, hany, hrec]

/-- C2: if any document of a batch has an id that already exists in the table,
add leaves the table exactly as it was (the whole batch, including its
non-conflicting rows, is rolled back), logs a warning exactly when
mute_unique_warnings is not set, and returns normally instead of raising. -/
theorem add_conflict_rolls_back_whole_batch (mute : Bool) (p : Int) (now : Nat)
    (tbl : List Row) (docs : List Doc) (hp : p ≠ 0)
    (hc : ∃ d ∈ docs, ∃ q ∈ tbl, q.doc_id = d.id) :
    add mute p now tbl docs = .ok (tbl, !mute) := by
  have hconf : insertAll tbl (docs.map (fun d =>
      mkRow d (Int.fmod ((int_of_hex (sha256hexdigest (utf8Bytes d.id)) : Nat) : Int) p)
        now)) = none := by
    apply insertAll_conflict
    obtain ⟨d, hd, q, hq, hqid⟩ := hc
    exact ⟨mkRow d _ now, List.mem_map_of_mem _ hd, q, hq, hqid⟩
  rw [add_eq mute p now tbl docs hp, hconf]

/-- Witness for add_conflict_rolls_back_whole_batch: a two-document batch in
which the second document collides with the only stored row. -/
theorem add_conflict_rolls_back_whole_batch_witness :
    ((4 : Int) ≠ 0 ∧
      (∃ d ∈ [Doc.mk "b" none 1, Doc.mk "a" none 2],
        ∃ q ∈ [Row.mk "a" none (some 0) 0 0], q.doc_id = d.id)) ∧
    add false 4 5 [Row.mk "a" none (some 0) 0 0] [Doc.mk "b" none 1, Doc.mk "a" none 2] =
      .ok ([Row.mk "a" none (some 0) 0 0], !false) :=
  ⟨⟨by decide, by decide⟩,
    add_conflict_rolls_back_whole_batch false 4 5 _ _ (by decide) (by decide)⟩

/-! ## Facts about soft deletion, search and get_size (C3) -/

theorem clearRow_doc_id (now : Nat) (i : String) (r : Row) :
    (clearRow now i r).doc_id = r.doc_id := by
  unfold clearRow
  split <;> rfl

/-- C3: soft-deleting a stored document keeps its row, with embedding and doc
set to NULL and last_updated refreshed; the table size is unchanged; and a
subsequent search of that id produces no retrievable document, failing on the
NULL payload instead of returning a parseable value. -/
theorem soft_delete_tombstone_not_searchable (tbl : List Row) (r : Row) (d : Doc)
    (now : Nat) (ret : Bool)
    (h : tbl.find? (fun q => q.doc_id == d.id) = some r) :
    (delete true now tbl [d]).find? (fun q => q.doc_id == d.id) =
      some (Row.mk d.id none none r.shard now) ∧
    get_size (delete true now tbl [d]) = get_size tbl ∧
    search (delete true now tbl [d]) ret [d.id] = .error .nullPayload := by
  have hdel : delete true now tbl [d] = tbl.map (clearRow now d.id) := rfl
  have hre : r.doc_id = d.id := by
    have hp := List.find?_some h
    simpa using hp
  have hcomp : ((fun q : Row => q.doc_id == d.id) ∘ clearRow now d.id) =
      fun q : Row => q.doc_id == d.id := by
    funext q
    simp [Function.comp, clearRow_doc_id]
  have hfind : (tbl.map (clearRow now d.id)).find? (fun q => q.doc_id == d.id) =
      some (clearRow now d.id r) := by
    rw [List.find?_map, hcomp, h]
    rfl
  have hclear : clearRow now d.id r = Row.mk d.id none none r.shard now := by
    unfold clearRow
    rw [if_pos hre, ← hre]
  have hsearch1 : searchOne (tbl.map (clearRow now d.id)) ret d.id = .error .nullPayload := by
    unfold searchOne
    rw [hfind, hclear]
  refine ⟨by rw [hdel, hfind, hclear], by simp [get_size, hdel], ?_⟩
  rw [hdel]
  unfold search
  rw [List.mapM_cons, hsearch1]
  rfl

/-- Witness for soft_delete_tombstone_not_searchable on a one-row table. -/
theorem soft_delete_tombstone_not_searchable_witness :
    ([Row.mk "a" (some 3) (some 7) 1 0].find?
        (fun q => q.doc_id == (Doc.mk "a" (some 9) 4).id) =
      some (Row.mk "a" (some 3) (some 7) 1 0)) ∧
    ((delete true 5 [Row.mk "a" (some 3) (some 7) 1 0] [Doc.mk "a" (some 9) 4]).find?
        (fun q => q.doc_id == (Doc.mk "a" (some 9) 4).id) =
      some (Row.mk (Doc.mk "a" (some 9) 4).id none none
        (Row.mk "a" (some 3) (some 7) 1 0).shard 5) ∧
    get_size (delete true 5 [Row.mk "a" (some 3) (some 7) 1 0] [Doc.mk "a" (some 9) 4]) =
      get_size [Row.mk "a" (some 3) (some 7) 1 0] ∧
    search (delete true 5 [Row.mk "a" (some 3) (some 7) 1 0] [Doc.mk "a" (some 9) 4]) true
        [(Doc.mk "a" (some 9) 4).id] = .error .nullPayload) :=
  ⟨by decide,
    soft_delete_tombstone_not_searchable [Row.mk "a" (some 3) (some 7) 1 0]
      (Row.mk "a" (some 3) (some 7) 1 0) (Doc.mk "a" (some 9) 4) 5 true (by decide)⟩

/-! ## Facts about the delta read (C4) -/

theorem rowKeyLe_trans : ∀ a b c : Row, rowKeyLe a b → rowKeyLe b c → rowKeyLe a c := by
  intro a b c hab hbc
  simp only [rowKeyLe, decide_eq_true_iff] at *
  exact le_trans hab hbc

theorem rowKeyLe_total : ∀ a b : Row, rowKeyLe a b || rowKeyLe b a := by
  intro a b
  simp only [rowKeyLe, Bool.or_eq_true, decide_eq_true_iff]
  exact le_total a.doc_id b.doc_id

/-- C4: for every shard set and timestamp boundary, the delta read is taken
from the primary table (the snapshot component of the store is irrelevant to
it) and streams (id, embedding, last_updated) triples of exactly the rows
whose shard lies in the set and whose last_updated strictly exceeds the
boundary, ordered by id; every streamed triple has last_updated strictly
above the boundary, so a boundary at or above a row's write time never
replays that row. -/
theorem delta_reads_exactly_recent_shard_rows (st : Store) (shards : List Int) (ts : Nat) :
    ∃ out, store_get_delta false st shards ts = .ok out ∧
      out.Perm ((st.table.filter (fun r =>
        decide (r.shard ∈ shards) && decide (ts < r.last_updated))).map
          (fun r => (r.doc_id, r.embedding, r.last_updated))) ∧
      (∀ x, x ∈ out ↔ ∃ r ∈ st.table, r.shard ∈ shards ∧ ts < r.last_updated ∧
        x = (r.doc_id, r.embedding, r.last_updated)) ∧
      out.Pairwise (fun x y => x.1 ≤ y.1) ∧
      (∀ x ∈ out, ts < x.2.2) ∧
      (∀ snap2, store_get_delta false { st with snapshot := snap2 } shards ts =
        store_get_delta false st shards ts) := by
  refine ⟨((st.table.filter (fun r =>
      decide (r.shard ∈ shards) && decide (ts < r.last_updated))).mergeSort rowKeyLe).map
        (fun r => (r.doc_id, r.embedding, r.last_updated)), by rfl, ?_, ?_, ?_, ?_,
    fun _ => rfl⟩
  · exact List.Perm.map _ (List.mergeSort_perm _ _)
  · intro x
    simp only [List.mem_map, List.mem_mergeSort, List.mem_filter, Bool.and_eq_true,
      decide_eq_true_iff]
    constructor
    · rintro ⟨r, ⟨hr, hs, ht⟩, rfl⟩
      exact ⟨r, hr, hs, ht, rfl⟩
    · rintro ⟨r, hr, hs, ht, rfl⟩
      exact ⟨r, ⟨hr, hs, ht⟩, rfl⟩
  · refine List.Pairwise.map _ (fun a b hab => ?_)
      (List.sorted_mergeSort rowKeyLe_trans rowKeyLe_total _)
    simpa [rowKeyLe] using hab
  · intro x hx
    simp only [List.mem_map, List.mem_mergeSort, List.mem_filter, Bool.and_eq_true,
      decide_eq_true_iff] at hx
    obtain ⟨r, ⟨_, _, ht⟩, rfl⟩ := hx
    exact ht

/-! ## Facts about the schema version guard (C5) -/

theorem versionMismatchMsg_infix_stored (v : Int) :
    List.IsInfix (toString v).data (versionMismatchMsg v).data :=
  ⟨("The schema versions of the database (version ").data,
   (") and the Executor (version " ++ toString SCHEMA_VERSION ++
    ") do not match. Please migrate your data to the latest version or use an " ++
    "Executor version with a matching schema version.").data,
   by simp [versionMismatchMsg, String.data_append, List.append_assoc]⟩

theorem versionMismatchMsg_infix_expected (v : Int) :
    List.IsInfix (toString SCHEMA_VERSION).data (versionMismatchMsg v).data :=
  ⟨("The schema versions of the database (version " ++ toString v ++
    ") and the Executor (version ").data,
   (") do not match. Please migrate your data to the latest version or use an " ++
    "Executor version with a matching schema version.").data,
   by simp [versionMismatchMsg, String.data_append, List.append_assoc]⟩

theorem noVersionMsg_infix_expected :
    List.IsInfix (toString SCHEMA_VERSION).data noVersionMsg.data :=
  ⟨("The schema versions of the database (NO version number) and the Executor (version ").data,
   (") do not match.Please migrate your data to the latest version.").data,
   by simp [noVersionMsg, String.data_append, List.append_assoc]⟩

/-- C5: initializing against an existing table whose registry row is absent,
or whose recorded version differs from the compiled-in SCHEMA_VERSION, makes
both table initialization and store construction fail with an error; the
error message always names the expected version, and when a registry row is
present it also names the stored version.  Construction failing means no
store value exists for any read or write operation to proceed on. -/
theorem schema_version_guard_blocks_startup (reg : List (String × Int)) (tbl : String)
    (partitions : Int) (mute : Bool)
    (h : ∀ v, lookupVersion reg tbl = some v → v ≠ SCHEMA_VERSION) :
    ∃ msg, _init_table true reg tbl = .error msg ∧
      pgInit partitions mute false true reg tbl = .error msg ∧
      List.IsInfix (toString SCHEMA_VERSION).data msg.data ∧
      (∀ v, lookupVersion reg tbl = some v → List.IsInfix (toString v).data msg.data) := by
  cases hv : lookupVersion reg tbl with
  | none =>
    refine ⟨noVersionMsg, ?_, ?_, noVersionMsg_infix_expected, ?_⟩
    · simp [_init_table, _assert_table_schema_version, hv]
    · simp [pgInit, _init_table, _assert_table_schema_version, hv]
    · intro v hv2
      exact absurd hv2 (by simp)
  | some v =>
    have hne := h v hv
    refine ⟨versionMismatchMsg v, ?_, ?_, versionMismatchMsg_infix_expected v, ?_⟩
    · simp [_init_table, _assert_table_schema_version, hv, hne]
    · simp [pgInit, _init_table, _assert_table_schema_version, hv, hne]
    · intro v2 hv2
      injection hv2 with h2
      exact h2 ▸ versionMismatchMsg_infix_stored v

/-- Witness for schema_version_guard_blocks_startup: a registry recording
version 3 for the managed table, against the compiled-in version 2. -/
theorem schema_version_guard_blocks_startup_witness :
    (∀ v : Int, lookupVersion [("t", 3)] "t" = some v → v ≠ SCHEMA_VERSION) ∧
    (∃ msg, _init_table true [("t", 3)] "t" = .error msg ∧
      pgInit 128 false false true [("t", 3)] "t" = .error msg ∧
      List.IsInfix (toString SCHEMA_VERSION).data msg.data ∧
      (∀ v, lookupVersion [("t", 3)] "t" = some v →
        List.IsInfix (toString v).data msg.data)) := by
  have hw : ∀ v : Int, lookupVersion [("t", 3)] "t" = some v → v ≠ SCHEMA_VERSION := by
    intro v hv
    have he : lookupVersion [("t", 3)] "t" = some 3 := by decide
    rw [he] at hv
    injection hv with h2
    simp [SCHEMA_VERSION, ← h2]
  exact ⟨hw, schema_version_guard_blocks_startup [("t", 3)] "t" 128 false hw⟩

/-! ## Snapshot read failures versus delta read failures (C6) -/

/-- C6 counterexample: a failing delta read does not return an empty result
with the error logged; the error propagates to the caller.  The claim that
all three read operations swallow failures is therefore false for the delta
read, whose body has no exception handler in the source. -/
theorem delta_read_failure_propagates_cex :
    _get_delta true ([] : List Row) [0] 0 = .error .backend ∧
    ∀ out, _get_delta true ([] : List Row) [0] 0 ≠ .ok out := by
  refine ⟨rfl, ?_⟩
  intro out h
  rw [show _get_delta true ([] : List Row) [0] 0 = .error .backend from rfl] at h
  exact Except.noConfusion h

/-- C6 amended: a failing snapshot read (including the snapshot table not
existing) yields an empty sequence with the error logged, and a failing
snapshot-size query yields zero with the error logged; a failing delta read,
however, raises to the caller instead of returning an empty sequence. -/
theorem snapshot_errors_swallowed_delta_errors_propagate
    (snap : Option (List Row)) (shards : List Int) (tbl : List Row) (ts : Nat) :
    get_snapshot true snap shards = ([], true) ∧
    get_snapshot false none shards = ([], true) ∧
    get_snapshot_size true snap = (0, true) ∧
    get_snapshot_size false none = (0, true) ∧
    _get_delta true tbl shards ts = .error .backend := by
  refine ⟨?_, rfl, ?_, rfl, rfl⟩
  · cases snap <;> rfl
  · cases snap <;> rfl

/-! ## Absence of partitions validation at construction (C7) -/

theorem pgInit_ok (p : Int) (mute tex : Bool) (reg : List (String × Int)) (tbl : String)
    (r : List (String × Int)) (h : _init_table tex reg tbl = .ok r) :
    pgInit p mute false tex reg tbl = .ok ⟨[], none, p, mute⟩ := by
  simp [pgInit, h]

theorem pgInit_error (p : Int) (mute tex : Bool) (reg : List (String × Int)) (tbl : String)
    (e : String) (h : _init_table tex reg tbl = .error e) :
    pgInit p mute false tex reg tbl = .error e := by
  simp [pgInit, h]

set_option maxRecDepth 40000 in
/-- C7 counterexample: constructing the store with partitions = 0 succeeds
rather than failing at construction time, and the shard computation then
runs with that non-positive partition count, raising a division error; with
a negative partition count it runs and produces a negative shard. -/
theorem construction_accepts_zero_partitions_cex :
    pgInit 0 false false true [("default_table", 2)] "default_table" =
      .ok ⟨[], none, 0, false⟩ ∧
    _get_next_shard "a" 0 = .error .zeroDivision ∧
    _get_next_shard "a" (-4) = .ok (-1) := by
  refine ⟨by rfl, rfl, ?_⟩
  rfl

set_option maxRecDepth 40000 in
/-- C7 amended: store construction performs no validation of partitions: its
success or failure is independent of the partitions argument, any integer is
stored as given, and the shard computation is reachable with non-positive
partition counts, raising a division error at zero and producing a shard
outside [0, N) for a negative count. -/
theorem construction_skips_partitions_validation (p q : Int) (mute dry tex : Bool)
    (reg : List (String × Int)) (tbl : String) (id : String) :
    (pgInit p mute dry tex reg tbl).isOk = (pgInit q mute dry tex reg tbl).isOk ∧
    (∀ s, pgInit p mute dry tex reg tbl = .ok s → s.partitions = p) ∧
    _get_next_shard id 0 = .error .zeroDivision ∧
    _get_next_shard "a" (-4) = .ok (-1) := by
  refine ⟨?_, ?_, rfl, by rfl⟩
  · cases dry with
    | true => rfl
    | false =>
      cases h : _init_table tex reg tbl with
      | ok r =>
        rw [pgInit_ok p mute tex reg tbl r h, pgInit_ok q mute tex reg tbl r h]
        rfl
      | error e =>
        rw [pgInit_error p mute tex reg tbl e h, pgInit_error q mute tex reg tbl e h]
  · intro s hs
    cases dry with
    | true =>
      have hd : pgInit p mute true tex reg tbl = .ok ⟨[], none, p, mute⟩ := rfl
      rw [hd] at hs
      injection hs with h2
      rw [← h2]
    | false =>
      cases h : _init_table tex reg tbl with
      | ok r =>
        rw [pgInit_ok p mute tex reg tbl r h] at hs
        injection hs with h2
        rw [← h2]
      | error e =>
        rw [pgInit_error p mute tex reg tbl e h] at hs
        exact Except.noConfusion hs

/-- Witness for construction_skips_partitions_validation at concrete
arguments, comparing partition counts 0 and 128. -/
theorem construction_skips_partitions_validation_witness :
    (pgInit 0 false false true [("t", 2)] "t").isOk =
      (pgInit 128 false false true [("t", 2)] "t").isOk ∧
    (∀ s, pgInit 0 false false true [("t", 2)] "t" = .ok s → s.partitions = 0) ∧
    _get_next_shard "b" 0 = .error .zeroDivision ∧
    _get_next_shard "a" (-4) = .ok (-1) :=
  construction_skips_partitions_validation 0 128 false false true [("t", 2)] "t" "b"

/-! ## Facts about update (C8, C10) -/

theorem updateRow_doc_id (now : Nat) (d : Doc) (r : Row) :
    (updateRow now d r).doc_id = r.doc_id := by
  unfold updateRow
  split <;> rfl

theorem updateRow_shard (now : Nat) (d : Doc) (r : Row) :
    (updateRow now d r).shard = r.shard := by
  unfold updateRow
  split <;> rfl

theorem foldl_map_update (now : Nat) (docs : List Doc) :
    ∀ tbl : List Row, docs.foldl (fun t d => t.map (updateRow now d)) tbl =
      tbl.map (fun r => docs.foldl (fun r d => updateRow now d r) r) := by
  induction docs with
  | nil => intro tbl; simp
  | cons d ds ih =>
    intro tbl
    simp only [List.foldl_cons]
    rw [ih (tbl.map (updateRow now d)), List.map_map]
    rfl

theorem applyAll_doc_id (now : Nat) (docs : List Doc) :
    ∀ r : Row, (docs.foldl (fun r d => updateRow now d r) r).doc_id = r.doc_id := by
  induction docs with
  | nil => intro r; rfl
  | cons d ds ih =>
    intro r
    simp only [List.foldl_cons]
    rw [ih, updateRow_doc_id]

theorem applyAll_shard (now : Nat) (docs : List Doc) :
    ∀ r : Row, (docs.foldl (fun r d => updateRow now d r) r).shard = r.shard := by
  induction docs with
  | nil => intro r; rfl
  | cons d ds ih =>
    intro r
    simp only [List.foldl_cons]
    rw [ih, updateRow_shard]

theorem applyAll_not_mem (now : Nat) (docs : List Doc) :
    ∀ r : Row, r.doc_id ∉ docs.map Doc.id →
      docs.foldl (fun r d => updateRow now d r) r = r := by
  induction docs with
  | nil => intro r _; rfl
  | cons d ds ih =>
    intro r hr
    simp only [List.map_cons, List.mem_cons, not_or] at hr
    obtain ⟨h1, h2⟩ := hr
    simp only [List.foldl_cons]
    rw [show updateRow now d r = r from by unfold updateRow; rw [if_neg h1]]
    exact ih r h2

theorem applyAll_mem (now : Nat) (docs : List Doc) :
    ∀ r : Row, r.doc_id ∈ docs.map Doc.id →
      ∃ d ∈ docs, d.id = r.doc_id ∧
        docs.foldl (fun r d => updateRow now d r) r =
          Row.mk r.doc_id d.embedding (some (doc_without_embedding d)) r.shard now := by
  induction docs with
  | nil => intro r hr; exact absurd hr (List.not_mem_nil _)
  | cons d ds ih =>
    intro r hr
    by_cases hds : r.doc_id ∈ ds.map Doc.id
    · have hid : (updateRow now d r).doc_id = r.doc_id := updateRow_doc_id now d r
      have hsh : (updateRow now d r).shard = r.shard := updateRow_shard now d r
      have hmem : (updateRow now d r).doc_id ∈ ds.map Doc.id := by rw [hid]; exact hds
      obtain ⟨d2, hd2, hd2id, hfold⟩ := ih (updateRow now d r) hmem
      refine ⟨d2, List.mem_cons_of_mem d hd2, by rw [hd2id, hid], ?_⟩
      simp only [List.foldl_cons]
      rw [hfold, hid, hsh]
    · have hd : r.doc_id = d.id := by
        simp only [List.map_cons, List.mem_cons] at hr
        rcases hr with h | h
        · exact h
        · exact absurd h hds
      have hrow : updateRow now d r =
          Row.mk r.doc_id d.embedding (some (doc_without_embedding d)) r.shard now := by
        unfold updateRow
        rw [if_pos hd]
      refine ⟨d, List.mem_cons_self d ds, hd.symm, ?_⟩
      simp only [List.foldl_cons]
      rw [hrow]
      exact applyAll_not_mem now ds _ hds

/-- C8: when update succeeds, the list of ids in the table and every row's
shard column are unchanged (update never inserts and never recomputes a
shard), rows whose id is absent from the batch are untouched, and rows whose
id appears in the batch have exactly their embedding, doc and last_updated
columns overwritten from a batch document with that id. -/
theorem update_preserves_ids_and_shards (now : Nat) (tbl : List Row) (docs : List Doc)
    (h : ∀ d ∈ docs, d.embedding.isSome) :
    ∃ t2, update now tbl docs = .ok t2 ∧
      t2.map Row.doc_id = tbl.map Row.doc_id ∧
      t2.map Row.shard = tbl.map Row.shard ∧
      get_size t2 = get_size tbl ∧
      List.Forall₂ (fun r r2 =>
        r2.doc_id = r.doc_id ∧ r2.shard = r.shard ∧
        (r.doc_id ∉ docs.map Doc.id → r2 = r) ∧
        (r.doc_id ∈ docs.map Doc.id → ∃ d ∈ docs, d.id = r.doc_id ∧
          r2 = Row.mk r.doc_id d.embedding (some (doc_without_embedding d)) r.shard now))
        tbl t2 := by
  have hall : docs.all (fun d => d.embedding.isSome) = true := List.all_eq_true.mpr h
  have hupd : update now tbl docs =
      .ok (tbl.map (fun r => docs.foldl (fun r d => updateRow now d r) r)) := by
    unfold update
    rw [if_pos hall, foldl_map_update]
  refine ⟨_, hupd, ?_, ?_, ?_, ?_⟩
  · rw [List.map_map]
    exact List.map_congr_left (fun r _ => applyAll_doc_id now docs r)
  · rw [List.map_map]
    exact List.map_congr_left (fun r _ => applyAll_shard now docs r)
  · simp [get_size]
  · rw [List.forall₂_map_right_iff, List.forall₂_same]
    intro r _
    refine ⟨applyAll_doc_id now docs r, applyAll_shard now docs r, ?_, ?_⟩
    · exact applyAll_not_mem now docs r
    · exact applyAll_mem now docs r

/-- Witness for update_preserves_ids_and_shards: a batch updating one stored
id and one absent id, all documents carrying embeddings. -/
theorem update_preserves_ids_and_shards_witness :
    (∀ d ∈ [Doc.mk "a" (some 9) 8, Doc.mk "z" (some 7) 6], d.embedding.isSome) ∧
    (∃ t2, update 4 [Row.mk "a" (some 1) (some 2) 3 0]
        [Doc.mk "a" (some 9) 8, Doc.mk "z" (some 7) 6] = .ok t2 ∧
      t2.map Row.doc_id = [Row.mk "a" (some 1) (some 2) 3 0].map Row.doc_id ∧
      t2.map Row.shard = [Row.mk "a" (some 1) (some 2) 3 0].map Row.shard ∧
      get_size t2 = get_size [Row.mk "a" (some 1) (some 2) 3 0] ∧
      List.Forall₂ (fun r r2 =>
        r2.doc_id = r.doc_id ∧ r2.shard = r.shard ∧
        (r.doc_id ∉ [Doc.mk "a" (some 9) 8, Doc.mk "z" (some 7) 6].map Doc.id → r2 = r) ∧
        (r.doc_id ∈ [Doc.mk "a" (some 9) 8, Doc.mk "z" (some 7) 6].map Doc.id →
          ∃ d ∈ [Doc.mk "a" (some 9) 8, Doc.mk "z" (some 7) 6], d.id = r.doc_id ∧
          r2 = Row.mk r.doc_id d.embedding (some (doc_without_embedding d)) r.shard 4))
        [Row.mk "a" (some 1) (some 2) 3 0] t2) :=
  ⟨by decide,
    update_preserves_ids_and_shards 4 [Row.mk "a" (some 1) (some 2) 3 0]
      [Doc.mk "a" (some 9) 8, Doc.mk "z" (some 7) 6] (by decide)⟩

/-- C10: update dereferences every embedding before anything executes, so a
batch containing a document without an embedding makes update raise with no
row written, whereas add accepts such a document and stores NULL in the
embedding column of the row it inserts. -/
theorem update_requires_embedding_add_accepts_null (now : Nat) (tbl : List Row)
    (docs : List Doc) (d : Doc) (p : Int) (mute : Bool)
    (hmem : d ∈ docs) (hne : d.embedding = none) (hp : p ≠ 0)
    (hfresh : ∀ q ∈ tbl, q.doc_id ≠ d.id) :
    update now tbl docs = .error .nullEmbedding ∧
    ∃ s, add mute p now tbl [d] =
      .ok (tbl ++ [Row.mk d.id none (some (doc_without_embedding d)) s now], false) := by
  constructor
  · have hnall : ¬ docs.all (fun d => d.embedding.isSome) = true := by
      intro hall
      have h2 := List.all_eq_true.mp hall d hmem
      rw [hne] at h2
      simp at h2
    unfold update
    rw [if_neg hnall]
  · refine ⟨Int.fmod ((int_of_hex (sha256hexdigest (utf8Bytes d.id)) : Nat) : Int) p, ?_⟩
    rw [add_eq mute p now tbl [d] hp]
    have hrow : mkRow d (Int.fmod ((int_of_hex (sha256hexdigest (utf8Bytes d.id)) : Nat) : Int) p)
        now = Row.mk d.id none (some (doc_without_embedding d))
          (Int.fmod ((int_of_hex (sha256hexdigest (utf8Bytes d.id)) : Nat) : Int) p) now := by
      unfold mkRow
      rw [hne]
    have hany : tbl.any (fun q => q.doc_id ==
        (Row.mk d.id none (some (doc_without_embedding d))
          (Int.fmod ((int_of_hex (sha256hexdigest (utf8Bytes d.id)) : Nat) : Int) p)
          now).doc_id) = false := by
      rw [Bool.eq_false_iff]
      intro hany
      obtain ⟨q, hq, hbeq⟩ := List.any_eq_true.mp hany
      exact hfresh q hq (by simpa using hbeq)
    have hins : insertAll tbl [Row.mk d.id none (some (doc_without_embedding d))
        (Int.fmod ((int_of_hex (sha256hexdigest (utf8Bytes d.id)) : Nat) : Int) p) now] =
        some (tbl ++ [Row.mk d.id none (some (doc_without_embedding d))
          (Int.fmod ((int_of_hex (sha256hexdigest (utf8Bytes d.id)) : Nat) : Int) p) now]) := by
      unfold insertAll
      rw [hany]
      rfl
    rw [List.map_cons, List.map_nil, hrow, hins]

/-- Witness for update_requires_embedding_add_accepts_null: a single document
without an embedding against an empty table. -/
theorem update_requires_embedding_add_accepts_null_witness :
    (Doc.mk "a" none 7 ∈ [Doc.mk "a" none 7] ∧
      (Doc.mk "a" none 7).embedding = none ∧
      (4 : Int) ≠ 0 ∧
      (∀ q ∈ ([] : List Row), q.doc_id ≠ (Doc.mk "a" none 7).id)) ∧
    (update 5 [] [Doc.mk "a" none 7] = .error .nullEmbedding ∧
      ∃ s, add false 4 5 [] [Doc.mk "a" none 7] =
        .ok ([] ++ [Row.mk (Doc.mk "a" none 7).id none
          (some (doc_without_embedding (Doc.mk "a" none 7))) s 5], false)) :=
  ⟨⟨by decide, by decide, by decide, by decide⟩,
    update_requires_embedding_add_accepts_null 5 [] [Doc.mk "a" none 7] (Doc.mk "a" none 7)
      4 false (by decide) (by decide) (by decide) (by decide)⟩

/-! ## Facts about the scoped connection acquisition (C9) -/

/-- C9: on every exit path of the get_connection context manager - normal
completion of the body, an exception raised by the body, and a failure during
acquisition itself - every acquired connection is released back to the pool
exactly once and at most one connection is acquired, and the multiset of
pooled connections is restored, so no path leaks a connection or returns one
twice. -/
theorem connection_returned_exactly_once {α : Type} (p : Pool) (body : Nat → Except Unit α) :
    (∀ c : Nat,
      (get_connection p body).2.2.count (PoolEv.released c) =
        (get_connection p body).2.2.count (PoolEv.acquired c) ∧
      (get_connection p body).2.2.count (PoolEv.acquired c) ≤ 1) ∧
    (get_connection p body).2.1.available.Perm p.available := by
  obtain ⟨avail⟩ := p
  cases avail with
  | nil =>
    exact ⟨fun c => ⟨rfl, by simp [get_connection]⟩, by simp [get_connection]⟩
  | cons c0 rest =>
    cases hb : body c0 with
    | ok a =>
      refine ⟨fun c => ⟨?_, ?_⟩, ?_⟩
      · by_cases hc : c0 = c
        · subst hc
          simp [get_connection, hb, List.count_cons, List.count_nil]
        · simp [get_connection, hb, List.count_cons, List.count_nil, hc]
      · by_cases hc : c0 = c
        · subst hc
          simp [get_connection, hb, List.count_cons, List.count_nil]
        · simp [get_connection, hb, List.count_cons, List.count_nil, hc]
      · simp only [get_connection, hb, _close_connection]
        exact List.perm_append_singleton c0 rest
    | error e =>
      refine ⟨fun c => ⟨?_, ?_⟩, ?_⟩
      · by_cases hc : c0 = c
        · subst hc
          simp [get_connection, hb, List.count_cons, List.count_nil]
        · simp [get_connection, hb, List.count_cons, List.count_nil, hc]
      · by_cases hc : c0 = c
        · subst hc
          simp [get_connection, hb, List.count_cons, List.count_nil]
        · simp [get_connection, hb, List.count_cons, List.count_nil, hc]
      · simp only [get_connection, hb, _close_connection]
        exact List.perm_append_singleton c0 rest

end PG
